import Mathlib

/-!
Verification of the dejax uniform replay buffer (src/dejax/uniform.py)
against its natural-language specification.

The buffer state is a circular buffer: a fixed-size storage list plus
head/tail cursors and a fullness flag.  Operations are pure state
transitions.  Items are modelled by an arbitrary inhabited type, the
storage by a list whose length is the capacity, and PRNG keys by
natural numbers.
-/

namespace Dejax

/-- Circular storage: fixed-size ring buffer of items plus write cursor
head, read cursor tail and a fullness flag (dejax/circular_buffer.py,
as described by the spec data model). -/
structure CircularBuffer (α : Type) where
  data : List α
  head : Nat
  tail : Nat
  full : Bool
  deriving Repr, DecidableEq

/-- Modelled from the spec: circular_buffer.max_size is the fixed
capacity, the leading dimension of the storage. -/
def max_size {α : Type} (b : CircularBuffer α) : Nat := b.data.length

/-- Modelled from the spec: circular_buffer.size — logical size is
(head - tail) mod max_size when not full, max_size when full.  The
subtraction is the mathematical one on residues: head and tail lie in
[0, max_size), so (head + max_size - tail) % max_size equals the Python
(head - tail) % max_size. -/
def size {α : Type} (b : CircularBuffer α) : Nat :=
  if b.full then max_size b else (b.head + max_size b - b.tail) % max_size b

/-- Modelled from the spec: circular_buffer.init allocates storage of
max_size item slots matching the prototype, with head = 0, tail = 0,
full = false. -/
def init {α : Type} (proto : α) (m : Nat) : CircularBuffer α :=
  { data := List.replicate m proto, head := 0, tail := 0, full := false }

/-- Modelled from the spec: circular_buffer.push writes the item at
physical index head; head advances by one modulo max_size; if the
buffer was full the oldest item is evicted by advancing tail; the new
fullness flag is head' == tail'. -/
def push {α : Type} (b : CircularBuffer α) (x : α) : CircularBuffer α :=
  let h' := (b.head + 1) % max_size b
  let t' := if b.full then (b.tail + 1) % max_size b else b.tail
  { data := b.data.set b.head x, head := h', tail := t', full := decide (h' = t') }

/-- Modelled from the spec: circular_buffer.get_at_index maps logical
offset i to physical index (tail + i) mod max_size and reads the
storage there. -/
def get_at_index {α : Type} [Inhabited α] (b : CircularBuffer α) (i : Nat) : α :=
  b.data.getD ((b.tail + i) % max_size b) default

/-- Modelled from the spec: the external PRNG primitive behind
jax.random.randint — a deterministic mixing function of the key and the
draw position. -/
def mix (key i : Nat) : Nat :=
  (key * 6364136223846793005 + i * 1442695040888963407 + 1013904223) % 2 ^ 64

/-- Modelled from the spec: jax.random.randint(rng, minval=0, maxval,
shape=(n,)) — n independent draws from [0, maxval), each a
deterministic function of the key alone. -/
def randint (key : Nat) (maxval : Nat) (n : Nat) : List Nat :=
  (List.range n).map (fun i => mix key i % maxval)

/-- Failure taxonomy of sampling: EmptyBufferError, raised when
sampling from a buffer of logical size 0 (the checkify.check in
uniform_sample). -/
inductive SampleError : Type where
  | emptyBuffer : SampleError
  deriving Repr, DecidableEq

/-- uniform_sample (src/dejax/uniform.py): checks size > 0 (checkify),
draws batch_size indices in [0, size) from the key, and gathers the
items at those logical positions. -/
def uniform_sample {α : Type} [Inhabited α] (buffer : CircularBuffer α) (rng : Nat)
    (batch_size : Nat) : Except SampleError (List α) :=
  if 0 < size buffer then
    Except.ok ((randint rng (size buffer) batch_size).map (fun i => get_at_index buffer i))
  else
    Except.error SampleError.emptyBuffer

/-- UniformReplayBufferState (src/dejax/uniform.py): a frozen dataclass
wrapping exactly one circular buffer. -/
structure UniformReplayBufferState (α : Type) where
  storage : CircularBuffer α
  deriving Repr, DecidableEq

/-- init_fn (src/dejax/uniform.py): wraps circular_buffer.init with the
capacity fixed at construction. -/
def init_fn {α : Type} (m : Nat) (proto : α) : UniformReplayBufferState α :=
  { storage := init proto m }

/-- size_fn (src/dejax/uniform.py): forwards to circular_buffer.size. -/
def size_fn {α : Type} (s : UniformReplayBufferState α) : Nat :=
  size s.storage

/-- add_fn (src/dejax/uniform.py): wraps circular_buffer.push. -/
def add_fn {α : Type} (s : UniformReplayBufferState α) (x : α) : UniformReplayBufferState α :=
  { storage := push s.storage x }

/-- sample_fn (src/dejax/uniform.py): forwards to uniform_sample. -/
def sample_fn {α : Type} [Inhabited α] (s : UniformReplayBufferState α) (rng : Nat)
    (batch_size : Nat) : Except SampleError (List α) :=
  uniform_sample s.storage rng batch_size

/-- update_fn (src/dejax/uniform.py): vmaps the per-item transformation
over the whole storage array and replaces the data field, keeping the
cursors. -/
def update_fn {α : Type} (s : UniformReplayBufferState α) (f : α → α) :
    UniformReplayBufferState α :=
  { storage := { data := s.storage.data.map f, head := s.storage.head,
                 tail := s.storage.tail, full := s.storage.full } }

/-- Modelled from the spec: utils.set_pytree_batch_items writes the
batch items into consecutive physical slots starting at pos, wrapping
modulo the storage length. -/
def set_pytree_batch_items {α : Type} (data : List α) (pos : Nat) : List α → List α
  | [] => data
  | x :: xs => set_pytree_batch_items (data.set (pos % data.length) x) (pos + 1) xs

/-- add_batch_fn (src/dejax/uniform.py): writes the batch at head,
advances head by the batch length modulo max_size, resets tail to 0
when the buffer was full (else keeps it), and sets full to
head' == tail'. -/
def add_batch_fn {α : Type} (s : UniformReplayBufferState α) (batch : List α) :
    UniformReplayBufferState α :=
  let buffer := s.storage
  let insert_pos := buffer.head
  let new_data := set_pytree_batch_items buffer.data insert_pos batch
  let new_head := (insert_pos + batch.length) % max_size buffer
  let new_tail := if buffer.full then 0 else buffer.tail
  let new_full := decide (new_head = new_tail)
  { storage := { data := new_data, head := new_head, tail := new_tail, full := new_full } }

/-- Sequential single-item insertion, left to right. -/
def addMany {α : Type} (s : UniformReplayBufferState α) (xs : List α) :
    UniformReplayBufferState α :=
  xs.foldl add_fn s

/-- The logical contents of the buffer, oldest first: the items at
logical offsets 0, ..., size - 1. -/
def residents {α : Type} [Inhabited α] (s : UniformReplayBufferState α) : List α :=
  (List.range (size_fn s)).map (fun i => get_at_index s.storage i)

/-- Claim C2: add_batch_fn moves head forward by the batch length
modulo max_size, resets tail to 0 exactly when the input state was
full, and sets the fullness flag to the equality of the new cursors. -/
theorem addBatch_cursors {α : Type} (s : UniformReplayBufferState α) (batch : List α) :
    (add_batch_fn s batch).storage.head
        = (s.storage.head + batch.length) % max_size s.storage
      ∧ (add_batch_fn s batch).storage.tail
        = (if s.storage.full then 0 else s.storage.tail)
      ∧ (add_batch_fn s batch).storage.full
        = decide ((add_batch_fn s batch).storage.head = (add_batch_fn s batch).storage.tail) := by
  refine ⟨rfl, rfl, ?_⟩
  rfl

/-- Claim C9: update_fn changes only the data field of the storage; the
head, tail and full cursors of the result equal those of the input. -/
theorem update_frame {α : Type} (s : UniformReplayBufferState α) (f : α → α) :
    (update_fn s f).storage.head = s.storage.head
      ∧ (update_fn s f).storage.tail = s.storage.tail
      ∧ (update_fn s f).storage.full = s.storage.full := by
  exact ⟨rfl, rfl, rfl⟩

/-- Claim C5: update_fn replaces the whole physical storage by the map
of the transformation over it — every one of the max_size slots,
in-range or stale, holds the image of its previous contents. -/
theorem update_maps_all_slots {α : Type} (s : UniformReplayBufferState α) (f : α → α) :
    (update_fn s f).storage.data = s.storage.data.map f
      ∧ max_size (update_fn s f).storage = max_size s.storage := by
  constructor
  · rfl
  · simp [update_fn, max_size]

/-- Well-formedness of a buffer state of capacity m: the storage has m
slots, both cursors are in range, and a full buffer has coinciding
cursors.  These are the spec's data-model invariants, established by
init and preserved by push. -/
def WF {α : Type} (m : Nat) (s : UniformReplayBufferState α) : Prop :=
  s.storage.data.length = m ∧ s.storage.head < m ∧ s.storage.tail < m
    ∧ (s.storage.full = true → s.storage.head = s.storage.tail)

/-- A batch write never changes the storage length. -/
theorem set_batch_length {α : Type} :
    ∀ (bt : List α) (d : List α) (pos : Nat),
      (set_pytree_batch_items d pos bt).length = d.length
  | [], _, _ => rfl
  | x :: xs, d, pos => by
    rw [set_pytree_batch_items, set_batch_length xs, List.length_set]

/-- Frame property of the batch write: a physical slot hit by no write
position keeps its previous contents. -/
theorem set_batch_frame {α : Type} :
    ∀ (bt : List α) (d : List α) (pos q : Nat),
      (∀ j, j < bt.length → q ≠ (pos + j) % d.length) →
      (set_pytree_batch_items d pos bt)[q]? = d[q]?
  | [], _, _, _, _ => rfl
  | x :: xs, d, pos, q, h => by
    rw [set_pytree_batch_items]
    have hlen : (d.set (pos % d.length) x).length = d.length := List.length_set ..
    have hrec := set_batch_frame xs (d.set (pos % d.length) x) (pos + 1) q ?_
    · rw [hrec]
      refine List.getElem?_set_ne ?_
      have h0 := h 0 (Nat.succ_pos _)
      simpa using fun hq => h0 (by simpa using hq.symm)
    · intro j hj
      rw [hlen]
      have := h (j + 1) (by simpa using Nat.succ_lt_succ hj)
      simpa [Nat.add_assoc, Nat.add_comm 1 j] using this

/-- When the batch is no longer than the capacity, the j-th batch item
ends up at physical slot (pos + j) mod capacity. -/
theorem set_batch_get {α : Type} :
    ∀ (bt : List α) (d : List α) (pos : Nat), bt.length ≤ d.length →
      ∀ j, j < bt.length →
        (set_pytree_batch_items d pos bt)[(pos + j) % d.length]? = bt[j]?
  | [], _, _, _, j, hj => absurd hj (Nat.not_lt_zero j)
  | x :: xs, d, pos, hle, j, hj => by
    have hd0 : 0 < d.length := Nat.lt_of_lt_of_le (Nat.succ_pos xs.length) hle
    have hlen : (d.set (pos % d.length) x).length = d.length := List.length_set ..
    match j with
    | 0 =>
      rw [set_pytree_batch_items]
      simp only [Nat.add_zero]
      have hframe := set_batch_frame xs (d.set (pos % d.length) x) (pos + 1)
          (pos % d.length) ?_
      · rw [hframe, List.getElem?_set_self (Nat.mod_lt pos hd0)]
        simp
      · intro j' hj'
        rw [hlen]
        intro hq
        have hmod : pos % d.length = (pos + (1 + j')) % d.length := by
          rw [hq]; ring_nf
        have hdvd : d.length ∣ 1 + j' := by
          have := (Nat.modEq_iff_dvd' (Nat.le_add_right pos (1 + j'))).mp hmod
          simpa using this
        have hlt : 1 + j' < d.length := by
          have : j' + 1 ≤ xs.length := hj'
          have : xs.length + 1 ≤ d.length := hle
          omega
        have := Nat.le_of_dvd (by omega : 0 < 1 + j') hdvd
        omega
    | Nat.succ j' =>
      rw [set_pytree_batch_items]
      have hrec := set_batch_get xs (d.set (pos % d.length) x) (pos + 1)
          (by rw [hlen]; exact Nat.le_of_succ_le hle) j' (Nat.lt_of_succ_lt_succ hj)
      rw [hlen] at hrec
      have harith : pos + 1 + j' = pos + (j' + 1) := by omega
      rw [harith] at hrec
      simpa using hrec

/-- Claim C3: add_batch_fn writes the N batch items into physical slots
head, head+1, ..., head+N-1 modulo max_size (wrapping past the end of
storage) — for batches within capacity, slot (head+j) mod max_size
holds batch item j — and every slot hit by no write keeps its previous
contents; the storage length is unchanged. -/
theorem addBatch_writes_slots {α : Type} (s : UniformReplayBufferState α) (batch : List α) :
    (add_batch_fn s batch).storage.data.length = s.storage.data.length
      ∧ (∀ q, (∀ j, j < batch.length → q ≠ (s.storage.head + j) % max_size s.storage) →
          (add_batch_fn s batch).storage.data[q]? = s.storage.data[q]?)
      ∧ (batch.length ≤ max_size s.storage → ∀ j, j < batch.length →
          (add_batch_fn s batch).storage.data[(s.storage.head + j) % max_size s.storage]?
            = batch[j]?) := by
  refine ⟨set_batch_length batch s.storage.data s.storage.head, ?_, ?_⟩
  · intro q hq
    exact set_batch_frame batch s.storage.data s.storage.head q hq
  · intro hle j hj
    exact set_batch_get batch s.storage.data s.storage.head hle j hj

/-- Claim C3 witness: capacity 3, head 2, batch of two items — the
write wraps to slots 2 and 0, and slot 1 keeps its old value. -/
theorem addBatch_writes_slots_witness :
    (add_batch_fn (⟨⟨[10, 11, 12], 2, 1, false⟩⟩ : UniformReplayBufferState Nat)
        [7, 8]).storage.data[2]? = some 7
      ∧ (add_batch_fn (⟨⟨[10, 11, 12], 2, 1, false⟩⟩ : UniformReplayBufferState Nat)
          [7, 8]).storage.data[0]? = some 8
      ∧ (add_batch_fn (⟨⟨[10, 11, 12], 2, 1, false⟩⟩ : UniformReplayBufferState Nat)
          [7, 8]).storage.data[1]? = some 11 := by
  have h0 := (addBatch_writes_slots (⟨⟨[10, 11, 12], 2, 1, false⟩⟩ :
      UniformReplayBufferState Nat) [7, 8]).2.2 (by decide) 0 (by decide)
  have h1 := (addBatch_writes_slots (⟨⟨[10, 11, 12], 2, 1, false⟩⟩ :
      UniformReplayBufferState Nat) [7, 8]).2.2 (by decide) 1 (by decide)
  have h2 := (addBatch_writes_slots (⟨⟨[10, 11, 12], 2, 1, false⟩⟩ :
      UniformReplayBufferState Nat) [7, 8]).2.1 1 (by decide)
  refine ⟨?_, ?_, ?_⟩
  · simpa [max_size] using h0
  · simpa [max_size] using h1
  · simpa [max_size] using h2

/-- Claim C1: sample_fn fails with EmptyBufferError exactly on states of
logical size 0, for every key and batch size. -/
theorem sample_empty_iff {α : Type} [Inhabited α] (s : UniformReplayBufferState α)
    (rng batch_size : Nat) :
    sample_fn s rng batch_size = Except.error SampleError.emptyBuffer ↔ size_fn s = 0 := by
  unfold sample_fn uniform_sample size_fn
  by_cases h : 0 < size s.storage
  · simp [h, Nat.pos_iff_ne_zero.mp h]
  · simp [h, Nat.eq_zero_of_not_pos h]

/-- Claim C10: on a state with head = tail and full = false (such as a
freshly initialised buffer), add_batch_fn with a zero-length batch
returns a state flagged full, whose logical size is the whole capacity,
although nothing was inserted. -/
theorem addBatch_empty_batch_marks_full {α : Type} (s : UniformReplayBufferState α)
    (batch : List α) (hb : batch.length = 0)
    (hht : s.storage.head = s.storage.tail) (hf : s.storage.full = false)
    (hlt : s.storage.head < max_size s.storage) :
    (add_batch_fn s batch).storage.full = true
      ∧ size_fn (add_batch_fn s batch) = max_size s.storage := by
  obtain ⟨⟨d, hd, t, fl⟩⟩ := s
  have hht' : hd = t := hht
  have hf' : fl = false := hf
  have hlt' : hd < d.length := hlt
  subst hht' hf'
  have hbnil : batch = [] := List.length_eq_zero.mp hb
  subst hbnil
  constructor
  · simp [add_batch_fn, set_pytree_batch_items, max_size, Nat.mod_eq_of_lt hlt']
  · simp [size_fn, size, add_batch_fn, set_pytree_batch_items, max_size, Nat.mod_eq_of_lt hlt']

/-- Claim C10 witness: the empty state of capacity 3 plus an empty
batch becomes full, of size 3. -/
theorem addBatch_empty_batch_marks_full_witness :
    (add_batch_fn (init_fn 3 (0 : Nat)) ([] : List Nat)).storage.full = true
      ∧ size_fn (add_batch_fn (init_fn 3 (0 : Nat)) ([] : List Nat))
          = max_size (init_fn 3 (0 : Nat)).storage :=
  addBatch_empty_batch_marks_full (init_fn 3 (0 : Nat)) [] (by decide) (by decide) (by decide)
    (by decide)

/-- Claim C4 (sampling stays in the buffer): on a state of positive
size, sample_fn succeeds with exactly batch_size items, each drawn from
the key alone and each the resident item at some logical offset below
the current size. -/
theorem sample_items_resident {α : Type} [Inhabited α] (s : UniformReplayBufferState α)
    (rng batch_size : Nat) (h : 0 < size_fn s) :
    ∃ out, sample_fn s rng batch_size = Except.ok out
      ∧ out.length = batch_size
      ∧ out = (randint rng (size_fn s) batch_size).map (fun i => get_at_index s.storage i)
      ∧ ∀ x ∈ out, ∃ i, i < size_fn s ∧ x = get_at_index s.storage i := by
  have h' : 0 < size s.storage := h
  refine ⟨(randint rng (size s.storage) batch_size).map (fun i => get_at_index s.storage i),
    ?_, ?_, rfl, ?_⟩
  · simp [sample_fn, uniform_sample, h']
  · simp [randint]
  · intro x hx
    rcases List.mem_map.mp hx with ⟨i, hi, hxi⟩
    rcases List.mem_map.mp hi with ⟨j, _, hij⟩
    refine ⟨i, ?_, hxi.symm⟩
    have : mix rng j % size s.storage < size s.storage := Nat.mod_lt _ h'
    simpa [← hij] using this

/-- Claim C4 witness: concrete sampling from a one-item buffer of
capacity 2, key 7, batch size 3. -/
theorem sample_items_resident_witness :
    0 < size_fn (add_fn (init_fn 2 (0 : Nat)) 5)
      ∧ ∃ out, sample_fn (add_fn (init_fn 2 (0 : Nat)) 5) 7 3 = Except.ok out
        ∧ out.length = 3
        ∧ out = (randint 7 (size_fn (add_fn (init_fn 2 (0 : Nat)) 5)) 3).map
            (fun i => get_at_index (add_fn (init_fn 2 (0 : Nat)) 5).storage i)
        ∧ ∀ x ∈ out, ∃ i, i < size_fn (add_fn (init_fn 2 (0 : Nat)) 5)
            ∧ x = get_at_index (add_fn (init_fn 2 (0 : Nat)) 5).storage i :=
  ⟨by decide, sample_items_resident (add_fn (init_fn 2 (0 : Nat)) 5) 7 3 (by decide)⟩

/-- Claim C7: updating with the identity transformation changes no
observation — the size and every sampling result are those of the
input state. -/
theorem update_id_observably_same {α : Type} [Inhabited α] (s : UniformReplayBufferState α) :
    size_fn (update_fn s id) = size_fn s
      ∧ ∀ rng batch_size, sample_fn (update_fn s id) rng batch_size
          = sample_fn s rng batch_size := by
  have hs : update_fn s id = s := by
    obtain ⟨⟨d, h, t, f⟩⟩ := s
    simp [update_fn]
  rw [hs]
  exact ⟨rfl, fun _ _ => rfl⟩

/-- Claim C8: all six operations are deterministic functions of their
arguments — equal arguments give equal results; the state is a value,
never mutated, so the embedding of every operation is a pure
function. -/
theorem ops_deterministic {α : Type} [Inhabited α]
    (m m' : Nat) (p p' : α) (s s' : UniformReplayBufferState α) (x x' : α)
    (bt bt' : List α) (f f' : α → α) (k k' b b' : Nat)
    (hm : m = m') (hp : p = p') (hs : s = s') (hx : x = x') (hbt : bt = bt')
    (hf : f = f') (hk : k = k') (hb : b = b') :
    init_fn m p = init_fn m' p'
      ∧ size_fn s = size_fn s'
      ∧ add_fn s x = add_fn s' x'
      ∧ add_batch_fn s bt = add_batch_fn s' bt'
      ∧ sample_fn s k b = sample_fn s' k' b'
      ∧ update_fn s f = update_fn s' f' := by
  subst hm hp hs hx hbt hf hk hb
  exact ⟨rfl, rfl, rfl, rfl, rfl, rfl⟩

/-- Claim C8 witness: determinism instantiated at concrete arguments. -/
theorem ops_deterministic_witness :
    init_fn 2 (0 : Nat) = init_fn 2 (0 : Nat)
      ∧ size_fn (init_fn 2 (0 : Nat)) = size_fn (init_fn 2 (0 : Nat))
      ∧ add_fn (init_fn 2 (0 : Nat)) 1 = add_fn (init_fn 2 (0 : Nat)) 1
      ∧ add_batch_fn (init_fn 2 (0 : Nat)) [1, 2] = add_batch_fn (init_fn 2 (0 : Nat)) [1, 2]
      ∧ sample_fn (init_fn 2 (0 : Nat)) 3 1 = sample_fn (init_fn 2 (0 : Nat)) 3 1
      ∧ update_fn (init_fn 2 (0 : Nat)) id = update_fn (init_fn 2 (0 : Nat)) id :=
  ops_deterministic 2 2 0 0 (init_fn 2 0) (init_fn 2 0) 1 1 [1, 2] [1, 2] id id 3 3 1 1
    rfl rfl rfl rfl rfl rfl rfl rfl

/-- Reduction of a modulus applied to a number below twice the
modulus. -/
theorem mod_two_cases (a m : Nat) (h : a < 2 * m) :
    a % m = if a < m then a else a - m := by
  by_cases hc : a < m
  · rw [if_pos hc, Nat.mod_eq_of_lt hc]
  · rw [if_neg hc, Nat.mod_eq_sub_mod (Nat.le_of_not_lt hc), Nat.mod_eq_of_lt (by omega)]

/-- A freshly initialised buffer of positive capacity is well
formed. -/
theorem WF_init {α : Type} (m : Nat) (hm : 0 < m) (proto : α) : WF m (init_fn m proto) := by
  refine ⟨?_, hm, hm, ?_⟩
  · simp [init_fn, init]
  · intro hfu
    simp [init_fn, init] at hfu

/-- A single-item insert preserves well-formedness. -/
theorem WF_add {α : Type} (m : Nat) (s : UniformReplayBufferState α) (x : α)
    (hWF : WF m s) : WF m (add_fn s x) := by
  obtain ⟨⟨d, h, t, fl⟩⟩ := s
  obtain ⟨hlen, hh, ht, hfl⟩ := hWF
  have hlen' : d.length = m := hlen
  have hh' : h < m := hh
  have hm : 0 < m := by omega
  refine ⟨?_, ?_, ?_, ?_⟩
  · show (d.set h x).length = m
    rw [List.length_set]
    exact hlen'
  · show (h + 1) % d.length < m
    rw [hlen']
    exact Nat.mod_lt _ hm
  · show (if fl = true then (t + 1) % d.length else t) < m
    by_cases hc : fl = true
    · rw [if_pos hc, hlen']
      exact Nat.mod_lt _ hm
    · rw [if_neg hc]
      exact ht
  · intro hfu
    exact of_decide_eq_true hfu

/-- The logical window has exactly size_fn items. -/
theorem length_residents {α : Type} [Inhabited α] (s : UniformReplayBufferState α) :
    (residents s).length = size_fn s := by
  simp [residents]

/-- Every successfully sampled item sits at some logical offset below
the current size. -/
theorem sample_ok_mem {α : Type} [Inhabited α] (s : UniformReplayBufferState α)
    (rng bs : Nat) (out : List α) (h : sample_fn s rng bs = Except.ok out) :
    ∀ x ∈ out, ∃ i, i < size_fn s ∧ x = get_at_index s.storage i := by
  unfold sample_fn uniform_sample at h
  by_cases hpos : 0 < size s.storage
  · rw [if_pos hpos] at h
    have hout : (randint rng (size s.storage) bs).map (fun i => get_at_index s.storage i)
        = out := by
      injection h
    intro x hx
    rw [← hout] at hx
    rcases List.mem_map.mp hx with ⟨i, hi, hxi⟩
    rcases List.mem_map.mp hi with ⟨j, _, hij⟩
    refine ⟨i, ?_, hxi.symm⟩
    have hlt : mix rng j % size s.storage < size s.storage := Nat.mod_lt _ hpos
    have : i < size s.storage := by rw [← hij]; exact hlt
    exact this
  · rw [if_neg hpos] at h
    exact absurd h (by simp)

/-- An item at a logical offset below the size belongs to the logical
window. -/
theorem get_mem_residents {α : Type} [Inhabited α] (s : UniformReplayBufferState α)
    (i : Nat) (hi : i < size_fn s) : get_at_index s.storage i ∈ residents s := by
  unfold residents
  exact List.mem_map.mpr ⟨i, List.mem_range.mpr hi, rfl⟩

/-- One push, seen through the logical window: the new window is the
old one — dropping its oldest item when the buffer was at capacity —
followed by the new item. -/
theorem residents_push {α : Type} [Inhabited α] (s : UniformReplayBufferState α) (x : α)
    (hh : s.storage.head < s.storage.data.length)
    (ht : s.storage.tail < s.storage.data.length)
    (hfl : s.storage.full = true → s.storage.head = s.storage.tail) :
    residents (add_fn s x)
      = (residents s).drop (size_fn s + 1 - s.storage.data.length) ++ [x] := by
  obtain ⟨⟨d, h, t, fl⟩⟩ := s
  have hh' : h < d.length := hh
  have ht' : t < d.length := ht
  have hfl' : fl = true → h = t := hfl
  set m := d.length with hm_def
  have hm : 0 < m := by omega
  have hgetD_ne : ∀ p : Nat, p ≠ h → (d.set h x).getD p default = d.getD p default := by
    intro p hp
    rw [List.getD_eq_getElem?_getD, List.getD_eq_getElem?_getD,
      List.getElem?_set_ne (fun he => hp he.symm)]
  have hgetD_eq : (d.set h x).getD h default = x := by
    rw [List.getD_eq_getElem?_getD, List.getElem?_set_self hh']
    rfl
  cases fl with
  | false =>
    set sz := (h + m - t) % m with hsz_def
    have hsz_fn : size_fn ⟨⟨d, h, t, false⟩⟩ = sz := by
      simp [size_fn, size, max_size, hsz_def, ← hm_def]
    have hszc : sz = if t ≤ h then h - t else h + m - t := by
      rw [hsz_def]
      by_cases hth : t ≤ h
      · rw [if_pos hth]
        have e : h + m - t = h - t + m := by omega
        rw [e, Nat.add_mod_right, Nat.mod_eq_of_lt (by omega)]
      · rw [if_neg hth, Nat.mod_eq_of_lt (by omega)]
    have hsz_lt : sz < m := by rw [hszc]; split <;> omega
    have F1 : ∀ i, i < sz → (t + i) % m ≠ h := by
      intro i hi
      rw [hszc] at hi
      by_cases hth : t ≤ h
      · rw [if_pos hth] at hi
        rw [Nat.mod_eq_of_lt (by omega : t + i < m)]
        omega
      · rw [if_neg hth] at hi
        rw [mod_two_cases (t + i) m (by omega)]
        split <;> omega
    have F2 : (t + sz) % m = h := by
      rw [hszc]
      by_cases hth : t ≤ h
      · rw [if_pos hth]
        have e : t + (h - t) = h := by omega
        rw [e, Nat.mod_eq_of_lt hh']
      · rw [if_neg hth]
        have e : t + (h + m - t) = h + m := by omega
        rw [e, Nat.add_mod_right, Nat.mod_eq_of_lt hh']
    have hsize_unfold : size_fn (add_fn ⟨⟨d, h, t, false⟩⟩ x)
        = if (h + 1) % m = t then m else ((h + 1) % m + m - t) % m := by
      simp [size_fn, size, add_fn, push, max_size, List.length_set, ← hm_def]
    have e1 : (h + 1) % m = if h + 1 < m then h + 1 else h + 1 - m :=
      mod_two_cases (h + 1) m (by omega)
    have hsize' : size_fn (add_fn ⟨⟨d, h, t, false⟩⟩ x) = sz + 1 := by
      rw [hsize_unfold]
      by_cases hc : (h + 1) % m = t
      · rw [if_pos hc, hszc]
        rw [e1] at hc
        by_cases hc2 : h + 1 < m
        · rw [if_pos hc2] at hc; split <;> omega
        · rw [if_neg hc2] at hc; split <;> omega
      · rw [if_neg hc, hszc]
        rw [e1] at hc ⊢
        by_cases hc2 : h + 1 < m
        · rw [if_pos hc2] at hc ⊢
          rw [mod_two_cases (h + 1 + m - t) m (by omega)]
          split <;> split <;> omega
        · rw [if_neg hc2] at hc ⊢
          rw [mod_two_cases (h + 1 - m + m - t) m (by omega)]
          split <;> split <;> omega
    have hres' : residents (add_fn ⟨⟨d, h, t, false⟩⟩ x)
        = (List.range (sz + 1)).map (fun i => (d.set h x).getD ((t + i) % m) default) := by
      unfold residents get_at_index
      rw [hsize']
      simp [add_fn, push, max_size, List.length_set, ← hm_def]
    have hres : residents ⟨⟨d, h, t, false⟩⟩
        = (List.range sz).map (fun i => d.getD ((t + i) % m) default) := by
      unfold residents get_at_index
      rw [hsz_fn]
      simp [max_size, ← hm_def]
    rw [hres', hres, hsz_fn, show sz + 1 - m = 0 from by omega, List.drop_zero,
      List.range_succ, List.map_append]
    have h1 : (List.range sz).map (fun i => (d.set h x).getD ((t + i) % m) default)
        = (List.range sz).map (fun i => d.getD ((t + i) % m) default) := by
      refine List.map_congr_left ?_
      intro i hi
      exact hgetD_ne _ (F1 i (List.mem_range.mp hi))
    have h2 : (d.set h x).getD ((t + sz) % m) default = x := by
      rw [F2]
      exact hgetD_eq
    rw [h1]
    congr 1
    simp only [List.map_cons, List.map_nil]
    rw [h2]
  | true =>
    have hht : h = t := hfl' rfl
    subst hht
    have hsz_fn : size_fn ⟨⟨d, h, h, true⟩⟩ = m := by
      simp [size_fn, size, max_size, ← hm_def]
    have hsize' : size_fn (add_fn ⟨⟨d, h, h, true⟩⟩ x) = m := by
      simp [size_fn, size, add_fn, push, max_size, List.length_set, ← hm_def]
    have hres' : residents (add_fn ⟨⟨d, h, h, true⟩⟩ x)
        = (List.range m).map
            (fun i => (d.set h x).getD (((h + 1) % m + i) % m) default) := by
      unfold residents get_at_index
      rw [hsize']
      simp [add_fn, push, max_size, List.length_set, ← hm_def]
    have hres : residents ⟨⟨d, h, h, true⟩⟩
        = (List.range m).map (fun i => d.getD ((h + i) % m) default) := by
      unfold residents get_at_index
      rw [hsz_fn]
      simp [max_size, ← hm_def]
    obtain ⟨mm, hmm⟩ : ∃ mm, m = mm + 1 := ⟨m - 1, by omega⟩
    have G1 : ∀ i, i < mm → (h + 1 + i) % m ≠ h := by
      intro i hi
      rw [mod_two_cases (h + 1 + i) m (by omega)]
      split <;> omega
    have G2 : (h + 1 + mm) % m = h := by
      have e : h + 1 + mm = h + m := by omega
      rw [e, Nat.add_mod_right, Nat.mod_eq_of_lt hh']
    have hrange : List.range m = List.range mm ++ [mm] := by
      rw [hmm, List.range_succ]
    have hrange2 : List.range m = 0 :: (List.range mm).map Nat.succ := by
      rw [hmm]
      exact List.range_succ_eq_map mm
    have hRHS : ((List.range m).map (fun i => d.getD ((h + i) % m) default)).drop 1
        = (List.range mm).map ((fun i => d.getD ((h + i) % m) default) ∘ Nat.succ) := by
      rw [hrange2, List.map_cons, List.map_map]
      rfl
    have h2 : (d.set h x).getD (((h + 1) % m + mm) % m) default = x := by
      rw [Nat.mod_add_mod, G2]
      exact hgetD_eq
    have h1 : (List.range mm).map (fun i => (d.set h x).getD (((h + 1) % m + i) % m) default)
        = (List.range mm).map
            ((fun i => d.getD ((h + i) % m) default) ∘ Nat.succ) := by
      refine List.map_congr_left ?_
      intro i hi
      have hi' : i < mm := List.mem_range.mp hi
      show (d.set h x).getD (((h + 1) % m + i) % m) default
          = d.getD ((h + Nat.succ i) % m) default
      rw [Nat.mod_add_mod]
      rw [hgetD_ne _ (G1 i hi')]
      have e : h + 1 + i = h + Nat.succ i := by omega
      rw [e]
    rw [hres', hres, hsz_fn, show m + 1 - m = 1 from by omega, hRHS]
    conv_lhs => rw [hrange]
    rw [List.map_append, h1]
    congr 1
    simp only [List.map_cons, List.map_nil]
    rw [h2]

/-- After any sequence of single-item inserts into a fresh buffer of
positive capacity, the state is well formed and the logical window is
exactly the inserted items with all but the last m dropped. -/
theorem residents_addMany {α : Type} [Inhabited α] (m : Nat) (hm : 0 < m) (proto : α)
    (xs : List α) :
    WF m (addMany (init_fn m proto) xs)
      ∧ residents (addMany (init_fn m proto) xs) = xs.drop (xs.length - m) := by
  induction xs using List.reverseRecOn with
  | nil =>
    refine ⟨WF_init m hm proto, ?_⟩
    simp [addMany, residents, size_fn, size, init_fn, init, max_size]
  | append_singleton l a ih =>
    obtain ⟨hWF, hres⟩ := ih
    obtain ⟨hlen, hh, ht, hfl⟩ := hWF
    have hstep : addMany (init_fn m proto) (l ++ [a])
        = add_fn (addMany (init_fn m proto) l) a := by
      simp [addMany, List.foldl_append]
    have hsize : size_fn (addMany (init_fn m proto) l) = min l.length m := by
      have h2 := length_residents (addMany (init_fn m proto) l)
      rw [hres, List.length_drop] at h2
      omega
    constructor
    · rw [hstep]
      exact WF_add m _ a ⟨hlen, hh, ht, hfl⟩
    · rw [hstep]
      rw [residents_push _ a (by rw [hlen]; exact hh) (by rw [hlen]; exact ht) hfl]
      rw [hres, hlen, hsize]
      rw [show (l ++ [a]).length = l.length + 1 from by simp]
      by_cases hc : l.length < m
      · rw [show l.length - m = 0 from by omega, show min l.length m + 1 - m = 0 from by omega,
          show l.length + 1 - m = 0 from by omega]
        simp
      · rw [show min l.length m + 1 - m = 1 from by omega, List.drop_drop,
          show l.length - m + 1 = 1 + (l.length - m) from by omega]
        rw [show 1 + (l.length - m) = l.length + 1 - m from by omega]
        rw [List.drop_append_of_le_length (by omega)]

/-- Claim C6: starting from a fresh buffer of positive capacity m and
inserting the distinct items of xs one at a time: while at most m items
have been inserted the size equals the number of inserts and the
logical window is exactly the inserted items; past capacity the size
stays m, the window is exactly the last m inserts (oldest first), items
inserted before that window are gone, and sampling can only ever return
inserted items. -/
theorem addMany_fifo {α : Type} [Inhabited α] (m : Nat) (proto : α) (xs : List α)
    (hm : 0 < m) (hnd : xs.Nodup) :
    (xs.length ≤ m →
        size_fn (addMany (init_fn m proto) xs) = xs.length
          ∧ residents (addMany (init_fn m proto) xs) = xs
          ∧ (∀ rng bs out,
              sample_fn (addMany (init_fn m proto) xs) rng bs = Except.ok out →
              ∀ x ∈ out, x ∈ xs))
      ∧ (m < xs.length →
          size_fn (addMany (init_fn m proto) xs) = m
            ∧ residents (addMany (init_fn m proto) xs) = xs.drop (xs.length - m)
            ∧ (∀ rng bs out,
                sample_fn (addMany (init_fn m proto) xs) rng bs = Except.ok out →
                ∀ x ∈ out, x ∈ xs)
            ∧ (∀ j, j < xs.length - m →
                xs.getD j default ∉ residents (addMany (init_fn m proto) xs))) := by
  obtain ⟨_, hres⟩ := residents_addMany m hm proto xs
  have hsize : size_fn (addMany (init_fn m proto) xs) = min xs.length m := by
    have h2 := length_residents (addMany (init_fn m proto) xs)
    rw [hres, List.length_drop] at h2
    omega
  have hsample : ∀ rng bs out,
      sample_fn (addMany (init_fn m proto) xs) rng bs = Except.ok out →
      ∀ x ∈ out, x ∈ xs := by
    intro rng bs out hout x hx
    obtain ⟨i, hi, rfl⟩ := sample_ok_mem _ rng bs out hout x hx
    have hmem := get_mem_residents _ i hi
    rw [hres] at hmem
    exact List.drop_subset _ xs hmem
  constructor
  · intro hle
    refine ⟨by omega, ?_, hsample⟩
    rw [hres, show xs.length - m = 0 from by omega, List.drop_zero]
  · intro hgt
    refine ⟨by omega, hres, hsample, ?_⟩
    intro j hj hmem
    rw [hres] at hmem
    have hjlen : j < xs.length := by omega
    obtain ⟨i, hi, hout⟩ := List.mem_iff_getElem.mp hmem
    have hi' : xs.length - m + i < xs.length := by
      rw [List.length_drop] at hi
      omega
    rw [List.getElem_drop, List.getD_eq_getElem xs default hjlen] at hout
    have hij := hnd.getElem_inj_iff.mp hout
    omega

/-- Claim C6 witness: capacity 2 and inserts 1, 2, 3 — size is 2, the
window is the last two items, and the first item is gone. -/
theorem addMany_fifo_witness :
    size_fn (addMany (init_fn 2 (0 : Nat)) [1, 2, 3]) = 2
      ∧ residents (addMany (init_fn 2 (0 : Nat)) [1, 2, 3]) = [2, 3]
      ∧ (1 : Nat) ∉ residents (addMany (init_fn 2 (0 : Nat)) [1, 2, 3]) := by
  have h := (addMany_fifo 2 (0 : Nat) [1, 2, 3] (by decide) (by decide)).2 (by decide)
  refine ⟨h.1, ?_, ?_⟩
  · exact h.2.1.trans (by decide)
  · have h3 := h.2.2.2 0 (by decide)
    exact h3

end Dejax
